import Mathlib

/-!
Verification of the offline spectrogram analysis and time/frequency-to-pixel
mapping pipeline of the `spectrogram` repository.

The embedding is shallow: each JavaScript/TypeScript function relevant to a
claim is translated into a Lean definition over exact arithmetic (`ℕ`, `ℤ`,
`ℚ` for the integer/rational parts of the pipeline, `ℝ` where the source uses
logarithms and powers).  JavaScript `Math.floor` is `Int.floor`, `Math.round`
is `Int.floor (x + 1/2)` (JS rounds halves toward positive infinity),
`Math.min`/`Math.max` are `min`/`max`.  Transcendental pieces that a claim
never needs to evaluate (the DFT twiddle factors and the `20·log10` decibel
conversion) are abstracted as function parameters, so that the surrounding
integer pipeline stays executable.
-/

/-! ## Shared JavaScript arithmetic helpers -/

/-- JavaScript `Math.round`: rounds half-way cases toward positive infinity,
i.e. `Math.round(x) = Math.floor(x + 0.5)`. -/
def jsRound (q : ℚ) : ℤ := ⌊q + 1 / 2⌋

/-- JavaScript truncation toward zero, used by the `%` operator:
`Math.trunc(q)` is `⌊q⌋` for non-negative `q` and `⌈q⌉` for negative `q`. -/
def jsTrunc (q : ℚ) : ℤ := if 0 ≤ q then ⌊q⌋ else ⌈q⌉

/-- JavaScript remainder `a % b`: the sign follows the dividend,
`a % b = a - b * trunc(a / b)`. -/
def jsMod (a b : ℚ) : ℚ := a - b * jsTrunc (a / b)

/-! ## Offline Spectrogram Builder (Spectrogram2D.js `loadFullSpectrogram`)

`loadFullSpectrogram` slices the rendered buffer into hops of
`chunkSize = Math.ceil(sampleRate / 30)` samples (line 113) and runs one
analysis per hop: `for (let i = 0; i < rawData.length; i += chunkSize)`
(line 123).  Each produced frame is a `Uint8Array(frequencyBinCount)` where
`frequencyBinCount = fftSize / 2` (Web Audio `AnalyserNode` contract). -/

/-- Hop size between analysis frames: `Math.ceil(audioBuffer.sampleRate / 30)`
(Spectrogram2D.js line 113).  On naturals `⌈n / 30⌉ = (n + 29) / 30`. -/
def chunkSize (sampleRate : ℕ) : ℕ := (sampleRate + 29) / 30

/-- Number of frequency bins per frame: `analyser.frequencyBinCount`, which the
Web Audio API defines as half the FFT size. -/
def frequencyBinCount (fftSize : ℕ) : ℕ := fftSize / 2

/-- The start offsets visited by the builder loop
`for (let i = 0; i < len; i += chunk)` (Spectrogram2D.js line 123); one
analysis frame is pushed per visited offset.  (In the source `chunk` is always
positive; the `0 < chunk` test only makes the recursion total.) -/
def analysisStarts (len chunk : ℕ) : List ℕ := go 0
where
  go (i : ℕ) : List ℕ :=
    if h : 0 < chunk ∧ i < len then i :: go (i + chunk) else []
  termination_by len - i
  decreasing_by omega

/-! ## Value Range and renormalization (Spectrogram3DWebGL.js)

`loadFullSpectrogram` (lines 364-374) scans every bin of every frame for the
global minimum and maximum, starting from `minValue = 255`, `maxValue = 0`.
`createSpectrogramTexture` (lines 536-558) renormalizes each raw magnitude
with denominator `valueRange = Math.max(1, maxValue - minValue)` and clamps
the rounded result into `[0, 255]`. -/

/-- Global-minimum scan of Spectrogram3DWebGL.js lines 364-371
(`let minValue = 255; ... if (value < minValue) minValue = value;`). -/
def spectrogramMin (values : List ℤ) : ℤ := values.foldl min 255

/-- Global-maximum scan of Spectrogram3DWebGL.js lines 365-372
(`let maxValue = 0; ... if (value > maxValue) maxValue = value;`). -/
def spectrogramMax (values : List ℤ) : ℤ := values.foldl max 0

/-- Normalization denominator `Math.max(1, maxValue - minValue)`
(Spectrogram3DWebGL.js line 538). -/
def valueRange (minValue maxValue : ℤ) : ℤ := max 1 (maxValue - minValue)

/-- One renormalized texture value (Spectrogram3DWebGL.js lines 557-558):
`normalized = Math.round(((rawValue - minValue) / valueRange) * 255)` stored as
`Math.max(0, Math.min(255, normalized))`. -/
def renormalizedValue (minValue maxValue rawValue : ℤ) : ℤ :=
  let normalized := jsRound (((rawValue : ℚ) - (minValue : ℚ))
    / (valueRange minValue maxValue : ℚ) * 255)
  max 0 (min 255 normalized)

/-! ## Hann taper denominator (both `computeFFTFromAnalyser` copies)

Spectrogram2D.js line 152 and Spectrogram3DWebGL.js line 439 compute
`0.5 * (1 - Math.cos((2 * Math.PI * i) / (windowSize - 1)))` where
`windowSize = Math.min(chunkSize, fftSize)` (lines 142 / 429).  The
denominator `windowSize - 1` is used as written, with no clamp. -/

/-- Analysis window length `Math.min(chunkSize, fftSize)`
(Spectrogram2D.js line 142, Spectrogram3DWebGL.js line 429). -/
def windowSizeOf (chunk fftSize : ℕ) : ℕ := min chunk fftSize

/-- The Hann taper denominator exactly as the code computes it:
`windowSize - 1` (Spectrogram2D.js line 152, Spectrogram3DWebGL.js
line 439).  No minimum-denominator clamp is applied. -/
def hannDenominator (windowSize : ℤ) : ℤ := windowSize - 1

/-- Modelled from the spec: the spec (§7) requires the window-size-1 Hann
denominator to be "guarded with a minimum-denominator clamp", i.e.
`max(1, windowSize - 1)`.  This clamped variant is absent from the source;
it is stated here only to compare with `hannDenominator`. -/
def hannDenominatorClamped (windowSize : ℤ) : ℤ := max 1 (windowSize - 1)

/-! ## Player FFT-size stepping (Spectrogram2D.js Player, lines 725-745) -/

/-- Player method `increaseFrequencyBins` (Spectrogram2D.js lines 725-734):
double the FFT size when the result stays at most 32768, reporting success;
otherwise leave it unchanged and report failure. -/
def increaseFrequencyBins (fftSize : ℕ) : ℕ × Bool :=
  let newSize := fftSize * 2
  if newSize ≤ 32768 then (newSize, true) else (fftSize, false)

/-- Player method `decreaseFrequencyBins` (Spectrogram2D.js lines 736-745):
halve the FFT size when the result stays at least 32, reporting success;
otherwise leave it unchanged and report failure.  (`currentSize / 2` is exact
on the even sizes the Player uses, so natural division is faithful.) -/
def decreaseFrequencyBins (fftSize : ℕ) : ℕ × Bool :=
  let newSize := fftSize / 2
  if 32 ≤ newSize then (newSize, true) else (fftSize, false)

/-- A valid analyser FFT size: a power of two between 32 and 32768
(the Web Audio `AnalyserNode.fftSize` contract assumed by the Player). -/
def isValidFFTSize (n : ℕ) : Prop :=
  32 ≤ n ∧ n ≤ 32768 ∧ ∃ k ∈ Finset.range 16, n = 2 ^ k

instance (n : ℕ) : Decidable (isValidFFTSize n) := by
  unfold isValidFFTSize
  exact instDecidableAnd

/-! ## Windowed Magnitude Analyzer (`computeFFTFromAnalyser`)

Both copies build a zero-initialized `samples` array of length `fftSize`,
copy `windowSize` samples from the signal (stopping early at the end of the
signal, so missing samples stay 0), multiply the first `windowSize` entries by
a Hann taper, and then accumulate one DFT sum per output bin.  The twiddle
factors `cos/sin(-2π·k·n/fftSize)` and the Hann values are transcendental;
they are abstracted here as function parameters `cosT`, `sinT`, `hann`, so
that claims that hold for every choice of taper and twiddle factors (such as
the all-zero-window claim) stay both faithful and executable.  The magnitude
is `sqrt(real² + imag²)` scaled by the positive factor `2/fftSize`; the
source's branch `magnitude > 0` is embedded as `0 < real² + imag²`, which is
equivalent, and the decibel conversion `20·log10(magnitude)` taken on the
positive branch is abstracted as a parameter `dbOf` applied to the squared
magnitude. -/

/-- The windowed sample array of `computeFFTFromAnalyser` (Spectrogram2D.js
lines 143-154, Spectrogram3DWebGL.js lines 430-441): zero everywhere except
indices `n < windowSize` with `startIndex + n` inside the signal, which hold
`signal[startIndex + n] * hann n`. -/
def windowedSamples (signal : ℕ → ℚ) (signalLen startIndex windowSize : ℕ)
    (hann : ℕ → ℚ) (n : ℕ) : ℚ :=
  if n < windowSize ∧ startIndex + n < signalLen then
    signal (startIndex + n) * hann n
  else 0

/-- One output bin of Spectrogram2D.js `computeFFTFromAnalyser`
(lines 156-182): DFT sums over the full zero-padded `fftSize` window,
magnitude branch with floor −100 dB, clamp of dB into `[-100, 0]`, rescale
`((dB + 100) / 100) * 255`, final clamp into `[0, 255]` and `Math.round`. -/
def computeBin2D (fftSize k : ℕ) (cosT sinT : ℕ → ℕ → ℚ) (dbOf : ℚ → ℚ)
    (samples : ℕ → ℚ) : ℤ :=
  let real := ∑ n ∈ Finset.range fftSize, samples n * cosT k n
  let imag := ∑ n ∈ Finset.range fftSize, samples n * sinT k n
  let magSq := real * real + imag * imag
  let dB := if 0 < magSq then dbOf magSq else -100
  let dBClamped := max (-100) (min 0 dB)
  let normalized := (dBClamped + 100) / 100 * 255
  jsRound (max 0 (min 255 normalized))

/-- One output bin of Spectrogram3DWebGL.js `computeFFTFromAnalyser`
(lines 443-468): DFT sums over only the `windowSize` actual samples,
magnitude branch with floor −100 dB, clamp of dB into `[-100, -30]`, rescale
`((dB + 100) / 70) * 255`, final clamp into `[0, 255]` and `Math.round`. -/
def computeBin3D (windowSize k : ℕ) (cosT sinT : ℕ → ℕ → ℚ) (dbOf : ℚ → ℚ)
    (samples : ℕ → ℚ) : ℤ :=
  let real := ∑ n ∈ Finset.range windowSize, samples n * cosT k n
  let imag := ∑ n ∈ Finset.range windowSize, samples n * sinT k n
  let magSq := real * real + imag * imag
  let dB := if 0 < magSq then dbOf magSq else -100
  let dBClamped := max (-100) (min (-30) dB)
  let normalized := (dBClamped + 100) / 70 * 255
  jsRound (max 0 (min 255 normalized))

/-! ## Playhead / Transport State -/

/-- Player method `getCurrentPlaybackPosition` (Spectrogram2D.js lines
773-779): the elapsed time is `context.currentTime - startTime` while
playing, the frozen `pauseTime` while paused; the result is
`(currentTime % duration) / duration`. -/
def getCurrentPlaybackPosition (isPlaying : Bool)
    (contextCurrentTime startTime pauseTime duration : ℚ) : ℚ :=
  let currentTime := if isPlaying then contextCurrentTime - startTime else pauseTime
  jsMod currentTime duration / duration

/-- The pause time set by `seekToPosition` (Spectrogram2D.js lines 566-577):
`Math.max(0, Math.min(1, normalizedPos)) * duration`. -/
def seekPauseTime (normalizedPos duration : ℚ) : ℚ :=
  max 0 (min 1 normalizedPos) * duration

/-- Function `getPlayheadPosition` (src/unnamed/part_007 lines 292-298): 0 for
a non-positive duration or offset, otherwise
`(((offset % duration) + duration) % duration) / duration` where the offset is
`ACTX.currentTime - playStartTime` while playing and `pauseOffset` while
paused. -/
def getPlayheadPosition (isPlayingBuffer : Bool)
    (contextCurrentTime playStartTime pauseOffset waveformDuration : ℚ) : ℚ :=
  if waveformDuration ≤ 0 then 0
  else
    let offset := if isPlayingBuffer then contextCurrentTime - playStartTime
      else pauseOffset
    if offset ≤ 0 then 0
    else jsMod (jsMod offset waveformDuration + waveformDuration)
      waveformDuration / waveformDuration

/-! ## Frequency Axis Mapper

Two implementations appear in the repository.  `applyScaleMode`
(Spectrogram2D.js lines 510-550, duplicated in src/unnamed/part_001) anchors
20 Hz and 20000 Hz and warps with `log10` or the mel formula
`2595·log10(1 + f/700)`.  `applyFrequencyScale`
(spectrogram-threejs/src/main.ts lines 691-702) uses `256^(t-1)` for its log
mode and the inverse mel formula for its mel mode.  Both are embedded over
`ℝ`. -/

/-- Method `linearToMel` (Spectrogram2D.js lines 538-550): map the anchored
frequency `20 + t·(20000-20)` through `mel(f) = 2595·log10(1 + f/700)` and
normalize between `mel(20)` and `mel(20000)`. -/
noncomputable def linearToMel (normalizedFreq : ℝ) : ℝ :=
  let freq := 20 + normalizedFreq * (20000 - 20)
  let melMin := 2595 * Real.logb 10 (1 + 20 / 700)
  let melMax := 2595 * Real.logb 10 (1 + 20000 / 700)
  let mel := 2595 * Real.logb 10 (1 + freq / 700)
  (mel - melMin) / (melMax - melMin)

/-- Method `applyScaleMode` (Spectrogram2D.js lines 510-536).  Scale modes:
0 = logarithmic (anchored at 20 Hz / 20000 Hz), 1 = linear (identity),
2 = mel, anything else falls through to the identity default branch. -/
noncomputable def applyScaleMode (scaleMode : ℕ) (normalizedFreq : ℝ) : ℝ :=
  if scaleMode = 0 then
    (Real.logb 10 (20 + normalizedFreq * (20000 - 20)) - Real.logb 10 20) /
      (Real.logb 10 20000 - Real.logb 10 20)
  else if scaleMode = 1 then normalizedFreq
  else if scaleMode = 2 then linearToMel normalizedFreq
  else normalizedFreq

/-- Scale mode union type of spectrogram-threejs/src/main.ts
(`'linear' | 'log' | 'mel'`). -/
inductive ScaleMode where
  | linear : ScaleMode
  | log : ScaleMode
  | mel : ScaleMode

/-- Helper `clamp` of spectrogram-threejs/src/main.ts lines 133-134:
`Math.min(max, Math.max(min, value))`. -/
def clamp (value lo hi : ℝ) : ℝ := min hi (max lo value)

/-- Function `applyFrequencyScale` (spectrogram-threejs/src/main.ts lines
691-702), with `LOG_SCALE_BASE = 256`: identity for `linear`, `256^(t-1)` for
`log`, and for `mel` the inverse-mel frequency for the mel fraction `t`,
normalized by the Nyquist frequency and clamped into `[0, 1]`. -/
noncomputable def applyFrequencyScale (nyquist : ℝ) (mode : ScaleMode)
    (t : ℝ) : ℝ :=
  match mode with
  | .linear => t
  | .log => (256 : ℝ) ^ (t - 1)
  | .mel =>
      let melMax := 2595 * Real.logb 10 (1 + nyquist / 700)
      let mel := t * melMax
      let freq := 700 * ((10 : ℝ) ^ (mel / 2595) - 1)
      clamp (freq / nyquist) 0 1

/-! ## Resampler / Texture Packer -/

/-- Time-axis source index of `drawSpectrogram` (Spectrogram2D.js line 277,
duplicated in src/unnamed/part_001 line 329):
`Math.floor((pixelX / width) * (numColumns - 1))`. -/
noncomputable def dataIndex2D (width numColumns : ℕ) (pixelX : ℕ) : ℤ :=
  ⌊((pixelX : ℝ) / (width : ℝ)) * ((numColumns : ℝ) - 1)⌋

/-- Frequency-axis source bin index of `drawSpectrogram` (Spectrogram2D.js
lines 286-290, duplicated in src/unnamed/part_001 lines 338-342):
`normalizedFreq = pixelY / (height - 1)` is warped by `applyScaleMode` and
inverted, `Math.floor((1 - scaledFreq) * (freqData.length - 1))`, so that the
top pixel row carries the highest frequency. -/
noncomputable def binIndex2D (scaleMode : ℕ) (height binCount : ℕ)
    (pixelY : ℕ) : ℤ :=
  ⌊(1 - applyScaleMode scaleMode ((pixelY : ℝ) / ((height : ℝ) - 1))) *
    ((binCount : ℝ) - 1)⌋

/-- The raw matrix value sampled for output cell `(x, y)` by
`drawSpectrogram`'s full-spectrogram branch (Spectrogram2D.js lines 275-291):
`spectrogramData[dataIndex][binIndex]`, with the matrix given as a function
from (frame, bin) to the stored 0-255 value. -/
noncomputable def gridValue2D (mat : ℕ → ℕ → ℤ)
    (scaleMode width height numColumns binCount x y : ℕ) : ℤ :=
  mat (dataIndex2D width numColumns x).toNat
    (binIndex2D scaleMode height binCount y).toNat

/-- Frequency-axis texture index of `createSpectrogramTexture`
(Spectrogram3DWebGL.js lines 533-543): `Math.min(sourceBinCount - 1,
Math.floor((x / widthDenominator) * binDenominator))` with
`widthDenominator = Math.max(1, textureWidth - 1)` and
`binDenominator = Math.max(1, sourceBinCount - 1)`. -/
def binIndexForX (textureWidth sourceBinCount : ℕ) (x : ℕ) : ℤ :=
  let widthDenominator : ℚ := max 1 ((textureWidth : ℚ) - 1)
  let binDenominator : ℚ := max 1 ((sourceBinCount : ℚ) - 1)
  min ((sourceBinCount : ℤ) - 1) ⌊(x : ℚ) / widthDenominator * binDenominator⌋

/-- Time-axis texture index of `createSpectrogramTexture`
(Spectrogram3DWebGL.js lines 532-547): `Math.min(frameCount - 1,
Math.floor((y / heightDenominator) * frameDenominator))` with
`heightDenominator = Math.max(1, textureHeight - 1)` and
`frameDenominator = Math.max(1, frameCount - 1)`. -/
def frameIndexForY (textureHeight frameCount : ℕ) (y : ℕ) : ℤ :=
  let heightDenominator : ℚ := max 1 ((textureHeight : ℚ) - 1)
  let frameDenominator : ℚ := max 1 ((frameCount : ℚ) - 1)
  min ((frameCount : ℤ) - 1) ⌊(y : ℚ) / heightDenominator * frameDenominator⌋

/-- Per-row clamp of `createSpectrogramTexture` (Spectrogram3DWebGL.js
line 555): `Math.min(freqData.length - 1, binIndexForX[x])`. -/
def safeBinIndex (freqDataLen : ℕ) (binIndex : ℤ) : ℤ :=
  min ((freqDataLen : ℤ) - 1) binIndex

/-- Concrete 2×2 spectrogram matrix used as counterexample input:
frame `f`, bin `b` holds `2·f + b`, i.e. `[[0, 1], [2, 3]]`. -/
def exMatrix : ℕ → ℕ → ℤ := fun f b => 2 * f + b

/-! ## Theorems -/

/-- Helper: the builder loop starting at `i` emits `⌈(len - i) / chunk⌉`
frames. -/
lemma analysisStarts_go_length (len chunk : ℕ) (hc : 0 < chunk) :
    ∀ i, (analysisStarts.go len chunk i).length = (len - i + chunk - 1) / chunk := by
  have key : ∀ m i, len - i ≤ m →
      (analysisStarts.go len chunk i).length = (len - i + chunk - 1) / chunk := by
    intro m
    induction m with
    | zero =>
      intro i h
      rw [analysisStarts.go, dif_neg (by omega), List.length_nil]
      have h0 : len - i = 0 := by omega
      rw [h0, Nat.zero_add]
      exact (Nat.div_eq_of_lt (by omega)).symm
    | succ m ih =>
      intro i h
      by_cases hi : i < len
      · rw [analysisStarts.go, dif_pos ⟨hc, hi⟩, List.length_cons,
          ih (i + chunk) (by omega)]
        have hd : 1 ≤ len - i := by omega
        rcases le_or_lt chunk (len - i) with hge | hlt
        · have e1 : len - (i + chunk) + chunk - 1 = len - i - 1 := by omega
          have e2 : len - i + chunk - 1 = (len - i - 1) + chunk := by omega
          rw [e1, e2, Nat.add_div_right _ hc]
        · have e1 : len - (i + chunk) = 0 := by omega
          have e2 : len - i + chunk - 1 = (len - i - 1) + chunk := by omega
          rw [e1, Nat.zero_add, Nat.div_eq_of_lt (by omega), e2,
            Nat.add_div_right _ hc, Nat.div_eq_of_lt (by omega)]
      · rw [analysisStarts.go, dif_neg (by omega), List.length_nil]
        have h0 : len - i = 0 := by omega
        rw [h0, Nat.zero_add]
        exact (Nat.div_eq_of_lt (by omega)).symm
  exact fun i => key (len - i) i le_rfl

/-- Helper: for a positive hop, the builder loop emits exactly
`⌈len / chunk⌉` frames — the spec's `frame count = ceil(sampleCount / hopSize)`. -/
lemma analysisStarts_length (len chunk : ℕ) (hc : 0 < chunk) :
    (analysisStarts len chunk).length = (len + chunk - 1) / chunk := by
  rw [analysisStarts]
  simpa using analysisStarts_go_length len chunk hc 0

/-- C4: for a 1-second buffer at 44100 Hz with FFT size 1024, the offline
builder uses hop size `⌈44100 / 30⌉ = 1470`, its loop emits exactly 30
analysis frames, and each frame has `1024 / 2 = 512` bins. -/
theorem offline_builder_scenario_44100 :
    chunkSize 44100 = 1470 ∧
    (analysisStarts 44100 (chunkSize 44100)).length = 30 ∧
    frequencyBinCount 1024 = 512 := by
  have hchunk : chunkSize 44100 = 1470 := rfl
  refine ⟨hchunk, ?_, rfl⟩
  rw [hchunk, analysisStarts_length 44100 1470 (by norm_num)]

/-- C6: the renormalization denominator is `max(1, max - min)`, hence at least
1 (never zero) for every observed range, including the degenerate `min = max`
range of an all-silent buffer and every range produced by the min/max scan;
and every renormalized value is clamped into `[0, 255]`. -/
theorem valueRange_safe (minValue maxValue rawValue : ℤ) (values : List ℤ) :
    1 ≤ valueRange minValue maxValue ∧
    valueRange minValue maxValue ≠ 0 ∧
    1 ≤ valueRange (spectrogramMin values) (spectrogramMax values) ∧
    0 ≤ renormalizedValue minValue maxValue rawValue ∧
    renormalizedValue minValue maxValue rawValue ≤ 255 := by
  refine ⟨le_max_left _ _, ?_, le_max_left _ _, le_max_left _ _, ?_⟩
  · have h : (1 : ℤ) ≤ valueRange minValue maxValue := le_max_left _ _
    omega
  · exact max_le (by norm_num) (min_le_left _ _)

/-- C2 (code evaluation at the failing input): with sample rate 30 the hop is
`⌈30 / 30⌉ = 1` sample, so the analysis window has length
`min(1, 1024) = 1` and the Hann denominator computed by the code is
`windowSize - 1 = 0` — the minimum-denominator clamp the spec requires
(which would yield 1) is absent from both `computeFFTFromAnalyser` copies. -/
theorem hann_denominator_unclamped :
    windowSizeOf (chunkSize 30) 1024 = 1 ∧
    hannDenominator 1 = 0 ∧
    hannDenominatorClamped 1 = 1 := by decide

/-- C10: starting from a valid FFT size (a power of two in `[32, 32768]`),
`increaseFrequencyBins` doubles the size and returns `true` exactly when the
doubled size is at most 32768 (then the result is again valid), otherwise it
leaves the size unchanged and returns `false`; `decreaseFrequencyBins` halves
the size and returns `true` exactly when the halved size is at least 32 (then
the result is again valid), otherwise it leaves the size unchanged and
returns `false`. -/
theorem frequencyBins_stepping (s : ℕ) (hs : isValidFFTSize s) :
    (s * 2 ≤ 32768 →
      increaseFrequencyBins s = (s * 2, true) ∧ isValidFFTSize (s * 2)) ∧
    (32768 < s * 2 → increaseFrequencyBins s = (s, false)) ∧
    (32 ≤ s / 2 →
      decreaseFrequencyBins s = (s / 2, true) ∧ isValidFFTSize (s / 2)) ∧
    (s / 2 < 32 → decreaseFrequencyBins s = (s, false)) := by
  obtain ⟨h32, _h32768, k, hk, rfl⟩ := hs
  have hk5 : 5 ≤ k := by
    by_contra hlt
    push_neg at hlt
    interval_cases k <;> omega
  refine ⟨?_, ?_, ?_, ?_⟩
  · intro h
    refine ⟨by simp [increaseFrequencyBins, h], by omega, by omega, k + 1, ?_, by ring⟩
    have hpow : 2 ^ (k + 1) ≤ 2 ^ 15 := by
      calc 2 ^ (k + 1) = 2 ^ k * 2 := by ring
        _ ≤ 32768 := h
        _ = 2 ^ 15 := by norm_num
    have := (Nat.pow_le_pow_iff_right (by norm_num : 1 < 2)).mp hpow
    simp only [Finset.mem_range]
    omega
  · intro h
    simp only [increaseFrequencyBins]
    rw [if_neg (by omega)]
  · intro h
    have hdiv : 2 ^ k / 2 = 2 ^ (k - 1) := by
      conv_lhs => rw [show k = (k - 1) + 1 by omega, pow_succ]
      exact Nat.mul_div_cancel _ (by norm_num)
    refine ⟨by simp [decreaseFrequencyBins, h], by omega, ?_, k - 1, ?_, hdiv⟩
    · calc 2 ^ k / 2 ≤ 2 ^ k := Nat.div_le_self _ _
        _ ≤ 32768 := _h32768
    · simp only [Finset.mem_range] at hk ⊢
      omega
  · intro h
    simp only [decreaseFrequencyBins]
    rw [if_neg (by omega)]

/-- Witness for C10: from the valid size 1024, increasing succeeds and yields
2048. -/
theorem frequencyBins_stepping_witness :
    increaseFrequencyBins 1024 = (2048, true) :=
  ((frequencyBins_stepping 1024 (by decide)).1 (by norm_num)).1

/-! ### JavaScript remainder facts -/

/-- Helper: JS truncation is odd. -/
lemma jsTrunc_neg (q : ℚ) : jsTrunc (-q) = -jsTrunc q := by
  unfold jsTrunc
  rcases lt_trichotomy q 0 with h | h | h
  · rw [if_pos (by linarith), if_neg (not_le.mpr h), Int.floor_neg]
  · subst h
    norm_num
  · rw [if_neg (by linarith), if_pos h.le, Int.ceil_neg]

/-- Helper: for a non-negative dividend, the JS remainder is the fractional
part of the quotient scaled back up. -/
lemma jsMod_eq_mul_fract (a b : ℚ) (ha : 0 ≤ a) (hb : 0 < b) :
    jsMod a b = b * Int.fract (a / b) := by
  unfold jsMod jsTrunc
  rw [if_pos (div_nonneg ha hb.le), Int.fract, mul_sub]
  have hcancel : b * (a / b) = a := by field_simp
  rw [hcancel]

/-- Helper: for `0 ≤ a` and `0 < b`, `a % b` lies in `[0, b)`. -/
lemma jsMod_nonneg_lt (a b : ℚ) (ha : 0 ≤ a) (hb : 0 < b) :
    0 ≤ jsMod a b ∧ jsMod a b < b := by
  rw [jsMod_eq_mul_fract a b ha hb]
  refine ⟨mul_nonneg hb.le (Int.fract_nonneg _), ?_⟩
  calc b * Int.fract (a / b) < b * 1 :=
        mul_lt_mul_of_pos_left (Int.fract_lt_one _) hb
    _ = b := mul_one b

/-- Helper: the JS remainder follows the sign of the dividend. -/
lemma jsMod_neg (a b : ℚ) : jsMod (-a) b = -jsMod a b := by
  unfold jsMod
  rw [neg_div, jsTrunc_neg]
  push_cast
  ring

/-- Helper: for a positive divisor, the JS remainder lies in `(-b, b)` for
every dividend. -/
lemma jsMod_bounds (a b : ℚ) (hb : 0 < b) : -b < jsMod a b ∧ jsMod a b < b := by
  rcases le_or_lt 0 a with ha | ha
  · have h := jsMod_nonneg_lt a b ha hb
    exact ⟨by linarith [h.1], h.2⟩
  · have h := jsMod_nonneg_lt (-a) b (by linarith) hb
    rw [← neg_neg a, jsMod_neg]
    exact ⟨by linarith [h.2], by linarith [h.1]⟩

/-- Helper: the JS remainder of a value already inside `[0, b)` is the value
itself. -/
lemma jsMod_eq_self (a b : ℚ) (ha : 0 ≤ a) (hab : a < b) : jsMod a b = a := by
  have hb : 0 < b := lt_of_le_of_lt ha hab
  unfold jsMod jsTrunc
  rw [if_pos (div_nonneg ha hb.le)]
  have hfloor : ⌊a / b⌋ = 0 := by
    rw [Int.floor_eq_zero_iff]
    exact Set.mem_Ico.mpr ⟨div_nonneg ha hb.le, by rw [div_lt_one hb]; exact hab⟩
  rw [hfloor]
  push_cast
  ring

/-- C5: for every FFT size, window placement and signal length, analyzing an
all-zero signal yields exactly 0 in every output bin of both
`computeFFTFromAnalyser` implementations, for every choice of Hann taper,
twiddle factors and decibel conversion, and no error occurs (the embedding is
total). -/
theorem allzero_window_yields_floor
    (fftSize windowSize k signalLen startIndex : ℕ)
    (cosT sinT : ℕ → ℕ → ℚ) (dbOf dbOf3 : ℚ → ℚ) (hann : ℕ → ℚ)
    (signal : ℕ → ℚ) (hzero : ∀ j, signal j = 0) :
    computeBin2D fftSize k cosT sinT dbOf
      (windowedSamples signal signalLen startIndex windowSize hann) = 0 ∧
    computeBin3D windowSize k cosT sinT dbOf3
      (windowedSamples signal signalLen startIndex windowSize hann) = 0 := by
  have hs : ∀ n, windowedSamples signal signalLen startIndex windowSize hann n = 0 := by
    intro n
    unfold windowedSamples
    split
    · rw [hzero]
      ring
    · rfl
  constructor
  · unfold computeBin2D
    simp only [hs, zero_mul, Finset.sum_const_zero]
    norm_num [jsRound]
  · unfold computeBin3D
    simp only [hs, zero_mul, Finset.sum_const_zero]
    norm_num [jsRound]

/-- Witness for C5: a concrete all-zero window of FFT size 4 produces bin
value 0. -/
theorem allzero_window_yields_floor_witness :
    computeBin2D 4 0 (fun _ _ => 1) (fun _ _ => 1) (fun q => q)
      (windowedSamples (fun _ => 0) 4 0 4 (fun _ => 1)) = 0 :=
  (allzero_window_yields_floor 4 4 0 4 0 (fun _ _ => 1) (fun _ _ => 1)
    (fun q => q) (fun q => q) (fun _ => 1) (fun _ => 0) (fun _ => rfl)).1

/-- C9: for a positive duration, the playback position is always in `[0, 1]`;
while playing it is exactly `((currentTime - startTime) % duration) /
duration`; while paused with a frozen offset inside `[0, duration)` it is the
frozen fractional offset `pauseTime / duration`; `seekToPosition` clamps any
input fraction so the stored pause time lies in `[0, duration]`; and the
part_007 `getPlayheadPosition` variant is in `[0, 1]` for every offset. -/
theorem playback_position_bounds (duration : ℚ) (hdur : 0 < duration) :
    (∀ (isPlaying : Bool) (ct st pt : ℚ),
        0 ≤ (if isPlaying then ct - st else pt) →
        0 ≤ getCurrentPlaybackPosition isPlaying ct st pt duration ∧
        getCurrentPlaybackPosition isPlaying ct st pt duration ≤ 1) ∧
    (∀ ct st pt : ℚ,
        getCurrentPlaybackPosition true ct st pt duration =
          jsMod (ct - st) duration / duration) ∧
    (∀ ct st pt : ℚ, 0 ≤ pt → pt < duration →
        getCurrentPlaybackPosition false ct st pt duration = pt / duration) ∧
    (∀ f : ℚ, 0 ≤ seekPauseTime f duration ∧ seekPauseTime f duration ≤ duration) ∧
    (∀ (isPlayingBuffer : Bool) (ct st po : ℚ),
        0 ≤ getPlayheadPosition isPlayingBuffer ct st po duration ∧
        getPlayheadPosition isPlayingBuffer ct st po duration ≤ 1) := by
  refine ⟨?_, ?_, ?_, ?_, ?_⟩
  · intro isPlaying ct st pt h
    unfold getCurrentPlaybackPosition
    have hm := jsMod_nonneg_lt _ duration h hdur
    exact ⟨div_nonneg hm.1 hdur.le, (div_le_one hdur).mpr hm.2.le⟩
  · intro ct st pt
    rfl
  · intro ct st pt h1 h2
    show jsMod pt duration / duration = pt / duration
    rw [jsMod_eq_self pt duration h1 h2]
  · intro f
    unfold seekPauseTime
    constructor
    · exact mul_nonneg (le_max_left 0 _) hdur.le
    · exact mul_le_of_le_one_left hdur.le
        (max_le zero_le_one (min_le_left 1 f))
  · intro isPlayingBuffer ct st po
    unfold getPlayheadPosition
    rw [if_neg (not_le.mpr hdur)]
    set offset := if isPlayingBuffer then ct - st else po with hoff
    by_cases hle : offset ≤ 0
    · rw [if_pos hle]
      norm_num
    · rw [if_neg hle]
      have h1 := jsMod_bounds offset duration hdur
      have h2 := jsMod_nonneg_lt (jsMod offset duration + duration) duration
        (by linarith [h1.1]) hdur
      exact ⟨div_nonneg h2.1 hdur.le, (div_le_one hdur).mpr h2.2.le⟩

/-- Witness for C9: with duration 2, a playhead paused at frozen offset 1/2
reports position 1/4, inside the unit interval. -/
theorem playback_position_bounds_witness :
    getCurrentPlaybackPosition false 0 0 (1/2) 2 = (1/2) / 2 :=
  (playback_position_bounds 2 (by norm_num)).2.2.1 0 0 (1/2)
    (by norm_num) (by norm_num)

/-! ### Frequency Axis Mapper facts -/

/-- Helper: the anchored-log denominator `log10(20000) - log10(20)` is
positive. -/
lemma logDenom_pos : 0 < Real.logb 10 20000 - Real.logb 10 20 := by
  have h := Real.logb_lt_logb (b := 10) (by norm_num)
    (by norm_num : (0:ℝ) < 20) (by norm_num : (20:ℝ) < 20000)
  linarith

/-- Helper: the mel denominator `mel(20000) - mel(20)` is positive. -/
lemma melDenom_pos :
    0 < 2595 * Real.logb 10 (1 + 20000 / 700) -
      2595 * Real.logb 10 (1 + 20 / 700) := by
  have h := Real.logb_lt_logb (b := 10) (by norm_num)
    (by norm_num : (0:ℝ) < 1 + 20 / 700)
    (by norm_num : (1:ℝ) + 20 / 700 < 1 + 20000 / 700)
  linarith

/-- Helper: `applyScaleMode` is monotone non-decreasing on `[0, ∞)` for every
scale mode. -/
lemma applyScaleMode_mono (scaleMode : ℕ) (s t : ℝ) (hs : 0 ≤ s)
    (hst : s ≤ t) :
    applyScaleMode scaleMode s ≤ applyScaleMode scaleMode t := by
  have hposS : (0:ℝ) < 20 + s * (20000 - 20) := by nlinarith
  have harg : 20 + s * (20000 - 20) ≤ 20 + t * (20000 - 20) := by nlinarith
  unfold applyScaleMode linearToMel
  split_ifs
  · rw [div_le_div_right logDenom_pos]
    have := Real.logb_le_logb_of_le (b := 10) (by norm_num) hposS harg
    linarith
  · exact hst
  · rw [div_le_div_right melDenom_pos]
    have hposS' : (0:ℝ) < 1 + (20 + s * (20000 - 20)) / 700 := by nlinarith
    have harg' : 1 + (20 + s * (20000 - 20)) / 700 ≤
        1 + (20 + t * (20000 - 20)) / 700 := by nlinarith
    have := Real.logb_le_logb_of_le (b := 10) (by norm_num) hposS' harg'
    linarith
  · exact hst

/-- Helper: `applyScaleMode` maps 0 to 0 in every scale mode. -/
lemma applyScaleMode_zero (scaleMode : ℕ) : applyScaleMode scaleMode 0 = 0 := by
  unfold applyScaleMode linearToMel
  split_ifs <;> norm_num

/-- Helper: `applyScaleMode` maps 1 to 1 in every scale mode. -/
lemma applyScaleMode_one (scaleMode : ℕ) : applyScaleMode scaleMode 1 = 1 := by
  unfold applyScaleMode linearToMel
  split_ifs
  · rw [show (20:ℝ) + 1 * (20000 - 20) = 20000 by norm_num]
    exact div_self logDenom_pos.ne'
  · rfl
  · dsimp only
    rw [show (1:ℝ) + (20 + 1 * (20000 - 20)) / 700 = 1 + 20000 / 700 by norm_num]
    exact div_self melDenom_pos.ne'
  · rfl

/-- Helper: `applyScaleMode` maps `[0, 1]` into `[0, 1]` in every scale
mode. -/
lemma applyScaleMode_mem (scaleMode : ℕ) (t : ℝ) (h0 : 0 ≤ t) (h1 : t ≤ 1) :
    0 ≤ applyScaleMode scaleMode t ∧ applyScaleMode scaleMode t ≤ 1 := by
  constructor
  · have h := applyScaleMode_mono scaleMode 0 t le_rfl h0
    rwa [applyScaleMode_zero] at h
  · have h := applyScaleMode_mono scaleMode t 1 h0 h1
    rwa [applyScaleMode_one] at h

/-- Helper: the three.js mel ceiling `2595·log10(1 + nyquist/700)` is
non-negative for a positive Nyquist frequency. -/
lemma melMax_nonneg (nyquist : ℝ) (hn : 0 < nyquist) :
    0 ≤ 2595 * Real.logb 10 (1 + nyquist / 700) := by
  have harg : (1:ℝ) ≤ 1 + nyquist / 700 := by
    have : 0 ≤ nyquist / 700 := by positivity
    linarith
  have := Real.logb_nonneg (b := 10) (by norm_num) harg
  linarith

/-- Helper: `applyFrequencyScale` is monotone non-decreasing for every mode
and positive Nyquist frequency. -/
lemma applyFrequencyScale_mono (nyquist : ℝ) (mode : ScaleMode) (s t : ℝ)
    (hn : 0 < nyquist) (hst : s ≤ t) :
    applyFrequencyScale nyquist mode s ≤ applyFrequencyScale nyquist mode t := by
  cases mode with
  | linear => exact hst
  | log =>
      show (256:ℝ) ^ (s - 1) ≤ (256:ℝ) ^ (t - 1)
      exact (Real.rpow_le_rpow_left_iff (by norm_num)).mpr (by linarith)
  | mel =>
      show clamp (700 * ((10:ℝ) ^
          (s * (2595 * Real.logb 10 (1 + nyquist / 700)) / 2595) - 1) / nyquist) 0 1 ≤
        clamp (700 * ((10:ℝ) ^
          (t * (2595 * Real.logb 10 (1 + nyquist / 700)) / 2595) - 1) / nyquist) 0 1
      have hexp : s * (2595 * Real.logb 10 (1 + nyquist / 700)) / 2595 ≤
          t * (2595 * Real.logb 10 (1 + nyquist / 700)) / 2595 := by
        have hmax := melMax_nonneg nyquist hn
        have := mul_le_mul_of_nonneg_right hst hmax
        linarith
      have hpow := (Real.rpow_le_rpow_left_iff (x := 10) (by norm_num)).mpr hexp
      have hfreq : 700 * ((10:ℝ) ^
            (s * (2595 * Real.logb 10 (1 + nyquist / 700)) / 2595) - 1) / nyquist ≤
          700 * ((10:ℝ) ^
            (t * (2595 * Real.logb 10 (1 + nyquist / 700)) / 2595) - 1) / nyquist :=
        (div_le_div_right hn).mpr (by linarith)
      unfold clamp
      exact min_le_min le_rfl (max_le_max le_rfl hfreq)

/-- Helper: `applyFrequencyScale` maps `[0, 1]` into `[0, 1]` for every mode
and positive Nyquist frequency. -/
lemma applyFrequencyScale_mem (nyquist : ℝ) (mode : ScaleMode) (t : ℝ)
    (hn : 0 < nyquist) (h0 : 0 ≤ t) (h1 : t ≤ 1) :
    0 ≤ applyFrequencyScale nyquist mode t ∧
    applyFrequencyScale nyquist mode t ≤ 1 := by
  cases mode with
  | linear => exact ⟨h0, h1⟩
  | log =>
      constructor
      · exact (Real.rpow_pos_of_pos (by norm_num) _).le
      · have h := (Real.rpow_le_rpow_left_iff
          (x := 256) (by norm_num)).mpr (by linarith : t - 1 ≤ (0:ℝ))
        rwa [Real.rpow_zero] at h
  | mel =>
      show 0 ≤ clamp (700 * ((10:ℝ) ^
          (t * (2595 * Real.logb 10 (1 + nyquist / 700)) / 2595) - 1) / nyquist) 0 1 ∧
        clamp (700 * ((10:ℝ) ^
          (t * (2595 * Real.logb 10 (1 + nyquist / 700)) / 2595) - 1) / nyquist) 0 1 ≤ 1
      unfold clamp
      exact ⟨le_min zero_le_one (le_max_left 0 _), min_le_left 1 _⟩

/-- Helper: `applyFrequencyScale` maps 1 to 1 for every mode and positive
Nyquist frequency. -/
lemma applyFrequencyScale_one (nyquist : ℝ) (mode : ScaleMode)
    (hn : 0 < nyquist) : applyFrequencyScale nyquist mode 1 = 1 := by
  cases mode with
  | linear => rfl
  | log =>
      show (256:ℝ) ^ ((1:ℝ) - 1) = 1
      rw [sub_self, Real.rpow_zero]
  | mel =>
      show clamp (700 * ((10:ℝ) ^
          ((1:ℝ) * (2595 * Real.logb 10 (1 + nyquist / 700)) / 2595) - 1) / nyquist) 0 1 = 1
      have hexp : (1:ℝ) * (2595 * Real.logb 10 (1 + nyquist / 700)) / 2595 =
          Real.logb 10 (1 + nyquist / 700) := by
        rw [one_mul]
        exact mul_div_cancel_left₀ _ (by norm_num)
      have hargpos : (0:ℝ) < 1 + nyquist / 700 := by
        have : 0 < nyquist / 700 := by positivity
        linarith
      rw [hexp, Real.rpow_logb (by norm_num) (by norm_num) hargpos]
      have hfreq : 700 * (1 + nyquist / 700 - 1) / nyquist = 1 := by
        field_simp
      rw [hfreq]
      unfold clamp
      norm_num

/-- Helper: the three.js linear and mel modes map 0 to 0 for a positive
Nyquist frequency. -/
lemma applyFrequencyScale_zero_linear_mel (nyquist : ℝ) (hn : 0 < nyquist) :
    applyFrequencyScale nyquist ScaleMode.linear 0 = 0 ∧
    applyFrequencyScale nyquist ScaleMode.mel 0 = 0 := by
  refine ⟨rfl, ?_⟩
  show clamp (700 * ((10:ℝ) ^
      ((0:ℝ) * (2595 * Real.logb 10 (1 + nyquist / 700)) / 2595) - 1) / nyquist) 0 1 = 0
  have hexp : (0:ℝ) * (2595 * Real.logb 10 (1 + nyquist / 700)) / 2595 = 0 := by
    ring
  rw [hexp, Real.rpow_zero]
  have hfreq : (700:ℝ) * (1 - 1) / nyquist = 0 := by ring
  rw [hfreq]
  unfold clamp
  norm_num

/-- Helper: the three.js log mode maps 0 to `256^(-1) = 1/256`, not 0. -/
lemma applyFrequencyScale_zero_log (nyquist : ℝ) :
    applyFrequencyScale nyquist ScaleMode.log 0 = 1 / 256 := by
  show (256:ℝ) ^ ((0:ℝ) - 1) = 1 / 256
  rw [zero_sub, Real.rpow_neg_one]
  norm_num

/-- C3 counterexample: the claim asserts `mapPosition(0) = 0` for every scale
mode of every frequency-axis mapper in the repository, but the three.js
implementation's `log` mode (`applyFrequencyScale` with `256^(t-1)`) maps 0 to
`1/256 ≠ 0` (here at the concrete Nyquist frequency 22050). -/
theorem mapPosition_zero_counterexample :
    applyFrequencyScale 22050 ScaleMode.log 0 ≠ 0 := by
  rw [applyFrequencyScale_zero_log]
  norm_num

/-- C3 (amended): both frequency-axis mappers are monotone non-decreasing
with values in `[0, 1]` on `[0, 1]` inputs; the 2D implementation
`applyScaleMode` maps 0 to 0 and 1 to 1 exactly in every mode, and the
three.js `applyFrequencyScale` maps 1 to 1 in every mode and 0 to 0 in its
linear and mel modes — but its log mode maps 0 to `1/256`. -/
theorem mapPosition_properties :
    (∀ (scaleMode : ℕ) (s t : ℝ), 0 ≤ s → s ≤ t →
        applyScaleMode scaleMode s ≤ applyScaleMode scaleMode t) ∧
    (∀ scaleMode : ℕ,
        applyScaleMode scaleMode 0 = 0 ∧ applyScaleMode scaleMode 1 = 1) ∧
    (∀ (scaleMode : ℕ) (t : ℝ), 0 ≤ t → t ≤ 1 →
        0 ≤ applyScaleMode scaleMode t ∧ applyScaleMode scaleMode t ≤ 1) ∧
    (∀ (nyquist : ℝ) (mode : ScaleMode) (s t : ℝ), 0 < nyquist → s ≤ t →
        applyFrequencyScale nyquist mode s ≤ applyFrequencyScale nyquist mode t) ∧
    (∀ (nyquist : ℝ) (mode : ScaleMode) (t : ℝ), 0 < nyquist → 0 ≤ t → t ≤ 1 →
        0 ≤ applyFrequencyScale nyquist mode t ∧
        applyFrequencyScale nyquist mode t ≤ 1) ∧
    (∀ (nyquist : ℝ) (mode : ScaleMode), 0 < nyquist →
        applyFrequencyScale nyquist mode 1 = 1) ∧
    (∀ nyquist : ℝ, 0 < nyquist →
        applyFrequencyScale nyquist ScaleMode.linear 0 = 0 ∧
        applyFrequencyScale nyquist ScaleMode.mel 0 = 0) ∧
    (∀ nyquist : ℝ, applyFrequencyScale nyquist ScaleMode.log 0 = 1 / 256) := by
  refine ⟨?_, ?_, ?_, ?_, ?_, ?_, ?_, ?_⟩
  · exact fun m s t hs hst => applyScaleMode_mono m s t hs hst
  · exact fun m => ⟨applyScaleMode_zero m, applyScaleMode_one m⟩
  · exact fun m t h0 h1 => applyScaleMode_mem m t h0 h1
  · exact fun nyq mode s t hn hst => applyFrequencyScale_mono nyq mode s t hn hst
  · exact fun nyq mode t hn h0 h1 => applyFrequencyScale_mem nyq mode t hn h0 h1
  · exact fun nyq mode hn => applyFrequencyScale_one nyq mode hn
  · exact fun nyq hn => applyFrequencyScale_zero_linear_mel nyq hn
  · exact fun nyq => applyFrequencyScale_zero_log nyq

/-- Witness for C3 (amended): monotonicity of the 2D mapper's log mode on the
concrete pair `0 ≤ 1`. -/
theorem mapPosition_properties_witness :
    applyScaleMode 0 0 ≤ applyScaleMode 0 1 :=
  mapPosition_properties.1 0 0 1 le_rfl zero_le_one

/-! ### Resampler index facts -/

/-- C7: in `drawSpectrogram` the frequency axis is inverted for every scale
mode: the top output row (`pixelY = 0`) samples the highest-frequency source
bin (`binCount - 1`) and the bottom output row (`pixelY = height - 1`)
samples the lowest-frequency bin (`0`). -/
theorem frequency_axis_inverted (scaleMode height binCount : ℕ)
    (hh : 2 ≤ height) (hb : 1 ≤ binCount) :
    binIndex2D scaleMode height binCount 0 = (binCount : ℤ) - 1 ∧
    binIndex2D scaleMode height binCount (height - 1) = 0 := by
  have hden : (0:ℝ) < (height:ℝ) - 1 := by
    have : (2:ℝ) ≤ (height:ℝ) := by exact_mod_cast hh
    linarith
  constructor
  · unfold binIndex2D
    rw [show ((0:ℕ):ℝ) / ((height:ℝ) - 1) = 0 by simp, applyScaleMode_zero]
    rw [show (1 - (0:ℝ)) * ((binCount:ℝ) - 1) = (((binCount:ℤ) - 1 : ℤ):ℝ) by
      push_cast; ring]
    exact Int.floor_intCast _
  · unfold binIndex2D
    rw [show (((height - 1 : ℕ)):ℝ) / ((height:ℝ) - 1) = 1 by
      rw [Nat.cast_sub (by omega), Nat.cast_one]
      exact div_self hden.ne']
    rw [applyScaleMode_one]
    rw [show (1 - (1:ℝ)) * ((binCount:ℝ) - 1) = 0 by ring]
    exact Int.floor_zero

/-- Witness for C7: with 4 output rows and 8 source bins in log mode, row 0
samples bin 7 and row 3 samples bin 0. -/
theorem frequency_axis_inverted_witness :
    binIndex2D 0 4 8 0 = 7 ∧ binIndex2D 0 4 8 3 = 0 := by
  have h := frequency_axis_inverted 0 4 8 (by norm_num) (by norm_num)
  exact ⟨h.1.trans (by norm_num), h.2⟩

/-- Helper: the 2D canvas time-axis index stays within
`[0, numColumns - 1]`. -/
lemma dataIndex2D_bounds (width numColumns x : ℕ) (hx : x < width)
    (hc : 1 ≤ numColumns) :
    0 ≤ dataIndex2D width numColumns x ∧
    dataIndex2D width numColumns x ≤ (numColumns : ℤ) - 1 := by
  have hw : (0:ℝ) < (width:ℝ) := by
    have h0 : 0 < width := by omega
    exact_mod_cast h0
  have hcol : (1:ℝ) ≤ (numColumns:ℝ) := by exact_mod_cast hc
  have hfrac0 : 0 ≤ (x:ℝ) / (width:ℝ) := div_nonneg (Nat.cast_nonneg x) hw.le
  have hfrac1 : (x:ℝ) / (width:ℝ) ≤ 1 := by
    rw [div_le_one hw]
    exact_mod_cast hx.le
  unfold dataIndex2D
  constructor
  · exact Int.floor_nonneg.mpr (mul_nonneg hfrac0 (by linarith))
  · have hle : (x:ℝ) / (width:ℝ) * ((numColumns:ℝ) - 1) ≤ (numColumns:ℝ) - 1 :=
      mul_le_of_le_one_left (by linarith) hfrac1
    have h2 := Int.floor_le_floor (α := ℝ) hle
    have h3 : ⌊((numColumns:ℝ) - 1)⌋ = (numColumns:ℤ) - 1 := by
      rw [show ((numColumns:ℝ) - 1) = (((numColumns:ℤ) - 1 : ℤ):ℝ) by
        push_cast; ring]
      exact Int.floor_intCast _
    exact le_trans h2 (le_of_eq h3)

/-- Helper: the 2D canvas frequency-axis index stays within
`[0, binCount - 1]` for every scale mode. -/
lemma binIndex2D_bounds (scaleMode height binCount y : ℕ)
    (hh : 2 ≤ height) (hy : y ≤ height - 1) (hb : 1 ≤ binCount) :
    0 ≤ binIndex2D scaleMode height binCount y ∧
    binIndex2D scaleMode height binCount y ≤ (binCount : ℤ) - 1 := by
  have hden : (0:ℝ) < (height:ℝ) - 1 := by
    have : (2:ℝ) ≤ (height:ℝ) := by exact_mod_cast hh
    linarith
  have ht0 : 0 ≤ (y:ℝ) / ((height:ℝ) - 1) :=
    div_nonneg (Nat.cast_nonneg y) hden.le
  have ht1 : (y:ℝ) / ((height:ℝ) - 1) ≤ 1 := by
    rw [div_le_one hden]
    have h := (Nat.cast_le (α := ℝ)).mpr hy
    rwa [Nat.cast_sub (by omega), Nat.cast_one] at h
  obtain ⟨hs0, hs1⟩ := applyScaleMode_mem scaleMode _ ht0 ht1
  have hbc : (1:ℝ) ≤ (binCount:ℝ) := by exact_mod_cast hb
  unfold binIndex2D
  constructor
  · exact Int.floor_nonneg.mpr (mul_nonneg (by linarith) (by linarith))
  · have hle : (1 - applyScaleMode scaleMode ((y:ℝ) / ((height:ℝ) - 1))) *
        ((binCount:ℝ) - 1) ≤ (binCount:ℝ) - 1 :=
      mul_le_of_le_one_left (by linarith) (by linarith)
    have h2 := Int.floor_le_floor (α := ℝ) hle
    have h3 : ⌊((binCount:ℝ) - 1)⌋ = (binCount:ℤ) - 1 := by
      rw [show ((binCount:ℝ) - 1) = (((binCount:ℤ) - 1 : ℤ):ℝ) by
        push_cast; ring]
      exact Int.floor_intCast _
    exact le_trans h2 (le_of_eq h3)

/-- Helper: the texture packer's frequency-axis index is clamped into
`[0, sourceBinCount - 1]` for every output column, even one past the grid. -/
lemma binIndexForX_bounds (textureWidth sourceBinCount x : ℕ)
    (hb : 1 ≤ sourceBinCount) :
    0 ≤ binIndexForX textureWidth sourceBinCount x ∧
    binIndexForX textureWidth sourceBinCount x ≤ (sourceBinCount : ℤ) - 1 := by
  unfold binIndexForX
  refine ⟨le_min (by omega) ?_, min_le_left _ _⟩
  apply Int.floor_nonneg.mpr
  apply mul_nonneg
  · exact div_nonneg (Nat.cast_nonneg x) (le_trans zero_le_one (le_max_left 1 _))
  · exact le_trans zero_le_one (le_max_left 1 _)

/-- Helper: the texture packer's time-axis index is clamped into
`[0, frameCount - 1]` for every output row, even one past the grid. -/
lemma frameIndexForY_bounds (textureHeight frameCount y : ℕ)
    (hf : 1 ≤ frameCount) :
    0 ≤ frameIndexForY textureHeight frameCount y ∧
    frameIndexForY textureHeight frameCount y ≤ (frameCount : ℤ) - 1 := by
  unfold frameIndexForY
  refine ⟨le_min (by omega) ?_, min_le_left _ _⟩
  apply Int.floor_nonneg.mpr
  apply mul_nonneg
  · exact div_nonneg (Nat.cast_nonneg y) (le_trans zero_le_one (le_max_left 1 _))
  · exact le_trans zero_le_one (le_max_left 1 _)

/-- C8: every source index the resampler computes is clamped into the valid
range for all grid dimensions and non-empty matrices: the texture packer's
time and frequency indices (with their explicit `Math.min` clamps and
`Math.max` denominator guards) lie in `[0, length - 1]` for arbitrary output
positions, the per-row `safeBinIndex` clamp keeps any non-negative index
within `[0, freqData.length - 1]`, and the 2D canvas indices lie in
`[0, length - 1]` for every on-canvas pixel in every scale mode — so no
lookup is ever out of range and no index wraps. -/
theorem resampler_indices_in_range :
    (∀ textureWidth sourceBinCount x : ℕ, 1 ≤ sourceBinCount →
        0 ≤ binIndexForX textureWidth sourceBinCount x ∧
        binIndexForX textureWidth sourceBinCount x ≤ (sourceBinCount : ℤ) - 1) ∧
    (∀ textureHeight frameCount y : ℕ, 1 ≤ frameCount →
        0 ≤ frameIndexForY textureHeight frameCount y ∧
        frameIndexForY textureHeight frameCount y ≤ (frameCount : ℤ) - 1) ∧
    (∀ (freqDataLen : ℕ) (b : ℤ), 1 ≤ freqDataLen → 0 ≤ b →
        0 ≤ safeBinIndex freqDataLen b ∧
        safeBinIndex freqDataLen b ≤ (freqDataLen : ℤ) - 1) ∧
    (∀ width numColumns x : ℕ, x < width → 1 ≤ numColumns →
        0 ≤ dataIndex2D width numColumns x ∧
        dataIndex2D width numColumns x ≤ (numColumns : ℤ) - 1) ∧
    (∀ scaleMode height binCount y : ℕ,
        2 ≤ height → y ≤ height - 1 → 1 ≤ binCount →
        0 ≤ binIndex2D scaleMode height binCount y ∧
        binIndex2D scaleMode height binCount y ≤ (binCount : ℤ) - 1) := by
  refine ⟨?_, ?_, ?_, ?_, ?_⟩
  · exact fun tw bc x hb => binIndexForX_bounds tw bc x hb
  · exact fun th fc y hf => frameIndexForY_bounds th fc y hf
  · intro L b hL hb
    unfold safeBinIndex
    exact ⟨le_min (by omega) hb, min_le_left _ _⟩
  · exact fun w nc x hx hc => dataIndex2D_bounds w nc x hx hc
  · exact fun sm h bc y hh hy hb => binIndex2D_bounds sm h bc y hh hy hb

/-- Witness for C8: an output column far beyond a 256-wide texture still
yields a frequency index inside `[0, 511]`. -/
theorem resampler_indices_in_range_witness :
    0 ≤ binIndexForX 256 512 1000 ∧ binIndexForX 256 512 1000 ≤ (512 : ℤ) - 1 :=
  resampler_indices_in_range.1 256 512 1000 (by norm_num)

/-- C1 counterexample: resampling the 2×2 matrix `[[0, 1], [2, 3]]` onto a
2×2 output grid with linear scale is not the identity: the grid value at
column 1, row 0 is `matrix[0][1] = 1`, not the original `matrix[1][0] = 2`
the claim requires. -/
theorem identity_resampling_counterexample :
    gridValue2D exMatrix 1 2 2 2 2 1 0 ≠ exMatrix 1 0 := by
  have hdata : dataIndex2D 2 2 1 = 0 := by
    unfold dataIndex2D
    rw [show ((1:ℕ):ℝ) / ((2:ℕ):ℝ) * (((2:ℕ):ℝ) - 1) = 1 / 2 by norm_num]
    rw [Int.floor_eq_zero_iff]
    constructor <;> norm_num
  have hbin : binIndex2D 1 2 2 0 = 1 := by
    unfold binIndex2D
    rw [show ((0:ℕ):ℝ) / (((2:ℕ):ℝ) - 1) = 0 by norm_num, applyScaleMode_zero]
    rw [show (1 - (0:ℝ)) * (((2:ℕ):ℝ) - 1) = 1 by norm_num]
    exact Int.floor_one
  unfold gridValue2D
  rw [hdata, hbin]
  decide

/-- C1 (amended): resampling an F×B matrix onto an F×B output grid with
linear scale and nearest-neighbor sampling is not the identity; instead, the
grid cell at column `x`, row `y` holds the matrix value at frame
`⌊x·(F-1)/F⌋` — which is `x - 1` for `x ≥ 1` and `0` for `x = 0` — and at the
frequency-inverted bin `B - 1 - y`. -/
theorem same_size_resampling_characterized (mat : ℕ → ℕ → ℤ) (F B x y : ℕ)
    (hF : 1 ≤ F) (hB : 2 ≤ B) (hx : x < F) (hy : y ≤ B - 1) :
    gridValue2D mat 1 F B F B x y =
      mat (if x = 0 then 0 else x - 1) (B - 1 - y) := by
  have hdata : (dataIndex2D F F x).toNat = if x = 0 then 0 else x - 1 := by
    by_cases hx0 : x = 0
    · subst hx0
      unfold dataIndex2D
      norm_num
    · have hx1 : 1 ≤ x := Nat.one_le_iff_ne_zero.mpr hx0
      have hFpos : (0:ℝ) < (F:ℝ) := by
        have h0 : 0 < F := by omega
        exact_mod_cast h0
      have hxle : (x:ℝ) ≤ (F:ℝ) := by exact_mod_cast hx.le
      have hxr : (1:ℝ) ≤ (x:ℝ) := by exact_mod_cast hx1
      have hfloor : dataIndex2D F F x = (x:ℤ) - 1 := by
        unfold dataIndex2D
        rw [Int.floor_eq_iff]
        constructor
        · push_cast
          rw [div_mul_eq_mul_div, le_div_iff hFpos]
          nlinarith
        · push_cast
          rw [div_mul_eq_mul_div, div_lt_iff hFpos]
          nlinarith
      rw [hfloor, if_neg hx0]
      omega
  have hbden : (0:ℝ) < (B:ℝ) - 1 := by
    have h2 : (2:ℝ) ≤ (B:ℝ) := by exact_mod_cast hB
    linarith
  have hbin : (binIndex2D 1 B B y).toNat = B - 1 - y := by
    have hlin : applyScaleMode 1 ((y:ℝ) / ((B:ℝ) - 1)) = (y:ℝ) / ((B:ℝ) - 1) := by
      unfold applyScaleMode
      norm_num
    have hfloor : binIndex2D 1 B B y = (B:ℤ) - 1 - (y:ℤ) := by
      unfold binIndex2D
      rw [hlin]
      rw [show (1 - (y:ℝ) / ((B:ℝ) - 1)) * ((B:ℝ) - 1) = ((B:ℝ) - 1) - (y:ℝ) by
        rw [sub_mul, one_mul, div_mul_cancel₀ _ hbden.ne']]
      rw [show ((B:ℝ) - 1) - (y:ℝ) = (((B:ℤ) - 1 - (y:ℤ) : ℤ):ℝ) by
        push_cast; ring]
      exact Int.floor_intCast _
    rw [hfloor]
    omega
  unfold gridValue2D
  rw [hdata, hbin]

/-- Witness for C1 (amended): on a 3×3 grid with linear scale, the cell at
column 2, row 1 holds frame 1, bin 1 of the matrix `[[0,1,2],[2,3,4],[4,5,6]]`
given by `2·f + b`, namely the value 3. -/
theorem same_size_resampling_characterized_witness :
    gridValue2D exMatrix 1 3 3 3 3 2 1 = 3 := by
  have h := same_size_resampling_characterized exMatrix 3 3 2 1
    (by norm_num) (by norm_num) (by norm_num) (by norm_num)
  rw [h]
  decide
